import Mathlib

/-!
# Verification of the playlist-to-tree synchronization engine

A shallow embedding of `src/db/update/Playlist.cxx` (MPD, Cebtenzzre fork):
the playlist expansion drain loop (`UpdateWalk::UpdatePlaylistFile`, three
overloads) and the dangling-reference purger
(`UpdateWalk::PurgeDanglingFromPlaylists`).

External collaborators (the storage path mapper `storage.MapUTF8`, the
`stat` existence probe, the song enumerator) are passed as parameters.
Repository helpers that are declared elsewhere (outside the provided
sources) are either modelled from the specification (each such definition
carries a doc comment starting `Modelled from the spec:`) or abstracted as
parameters where only their result matters.

Machine integers do not occur on the modelled paths; timestamps are `Nat`.
-/

set_option autoImplicit false

namespace MpdPlaylist

/-- A `Song` tree leaf: filename (unique within its directory), the optional
`target` of a virtual reference (empty string when the song is real
content), and the derived `in_playlist` mark. -/
structure Song where
  filename : String
  target : String
  in_playlist : Bool
deriving Repr, DecidableEq

/-- Whether the character list contains the `://` scheme separator. -/
def hasSchemeSep : List Char → Bool
  | ':' :: '/' :: '/' :: _ => true
  | _ :: rest => hasSchemeSep rest
  | [] => false

/-- Modelled from the spec: `uri_has_scheme` (util/UriUtil, not under the
provided sources) — whether the string carries a URI scheme, i.e. contains
a `://` separator. -/
def hasUriScheme (s : String) : Bool :=
  hasSchemeSep s.data

/-- Modelled from the spec: `PathTraitsUTF8::IsAbsoluteOrHasScheme`
(fs/Traits.hxx, not under the provided sources) — true when the path is
absolute (leading separator) or carries a URI scheme. -/
def isAbsoluteOrHasScheme (s : String) : Bool :=
  (match s.data with | '/' :: _ => true | _ => false) || hasUriScheme s

/-- Zero-pad a numeral to width 4 (the `%04u` format directive). -/
def pad4 (n : Nat) : String :=
  let s := toString n
  String.mk (List.replicate (4 - s.length) '0') ++ s

/-- The synthetic filename `StringFormat<64>("track%04u", n)` given to a
virtual song. -/
def trackName (n : Nat) : String :=
  "track" ++ pad4 n

/-- `std::map` insertion `song_map[k] = v`: a later insertion with the same
key overwrites the earlier one. -/
def mapInsert (m : List (String × Song)) (k : String) (v : Song) :
    List (String × Song) :=
  (m.filter (fun kv => kv.1 ≠ k)) ++ [(k, v)]

/-- `song_map.erase(match)`: drop the entry with the given key. -/
def mapErase (m : List (String × Song)) (k : String) : List (String × Song) :=
  m.filter (fun kv => kv.1 ≠ k)

/-- The snapshot `for (auto &song : parent.songs) song_map[song.filename] = &song;`
taken at the top of the drain overload. -/
def buildSongMap (songs : List Song) : List (String × Song) :=
  songs.foldl (fun m s => mapInsert m s.filename s) []

/-- How the drain loop `while (true) { auto song = contents.NextSong(); ... }`
terminated. -/
inductive DrainExit where
  /-- `NextSong` returned null: the sequence is exhausted. -/
  | finished
  /-- The `mpd://bail` sentinel was encountered (hard stop). -/
  | bailStop
  /-- The `stat` probe failed for an entry's resolved path (hard stop). -/
  | missingStop
  /-- The enumerator raised an exception (caught by the caller). -/
  | threw
deriving Repr, DecidableEq

/-- State after the drain loop.  `dir` is the virtual directory's song list
as reachable from the tree: `none` when the directory pointer was null or
the directory was deleted by the loop.  `consumed` counts the entries
actually read from the enumerator; `removals` and `probed` are ghost logs
of the parent-song removals (by map key) and of the paths given to the
`stat` probe — they record calls and never influence control flow. -/
structure DrainResult where
  parentSongs : List Song
  dir : Option (List Song)
  exit : DrainExit
  consumed : Nat
  removals : List String
  probed : List String
deriving Repr, DecidableEq

/-- The drain loop of `UpdateWalk::UpdatePlaylistFile(Directory &parent,
Directory *directory, SongEnumerator &contents)` (lines 53-101).
`thenThrow` models the enumerator raising an exception at the `NextSong`
call following the listed entries. -/
def drainLoop (mapped : String) (stat : String → Bool) :
    List (String × Song) → List Song → Option (List Song) → Nat →
    List String → Bool → DrainResult
  | _, parent, dir, _, [], thenThrow =>
      ⟨parent, dir, if thenThrow then .threw else .finished, 0, [], []⟩
  | songMap, parent, dir, track, uri :: rest, thenThrow =>
      if uri = "mpd://bail" then
        -- unsupported playlist: delete the directory (if non-null) and break
        ⟨parent, none, .bailStop, 1, [], []⟩
      else
        -- `db_song` is constructed only when the directory pointer is non-null
        let track' := if dir.isSome then track + 1 else track
        let dbSong : Option Song := dir.map (fun _ =>
          ⟨trackName track',
           if isAbsoluteOrHasScheme uri then uri else "../" ++ uri,
           false⟩)
        let path := mapped ++ "/" ++ uri
        if stat path then
          let dir' : Option (List Song) :=
            match dir, dbSong with
            | some l, some s => some (l ++ [s])
            | _, _ => dir
          match songMap.lookup uri with
          | some s =>
              let r := drainLoop mapped stat (mapErase songMap uri)
                (parent.erase s) dir' track' rest thenThrow
              ⟨r.parentSongs, r.dir, r.exit, r.consumed + 1,
               uri :: r.removals, path :: r.probed⟩
          | none =>
              let r := drainLoop mapped stat songMap parent dir' track'
                rest thenThrow
              ⟨r.parentSongs, r.dir, r.exit, r.consumed + 1,
               r.removals, path :: r.probed⟩
        else
          -- song does not exist: delete the directory (if non-null) and break
          ⟨parent, none, .missingStop, 1, [], [path]⟩

/-- The full inner overload: build the snapshot, then drain, with the track
counter starting at 0 (first synthetic name is `track0001`). -/
def updatePlaylistFileInner (mapped : String) (stat : String → Bool)
    (parent : List Song) (dir : Option (List Song))
    (uris : List String) (thenThrow : Bool) : DrainResult :=
  drainLoop mapped stat (buildSongMap parent) parent dir 0 uris thenThrow

/-- A virtual playlist directory: its stored source modification time and
its songs. -/
structure VDir where
  mtime : Nat
  songs : List Song
deriving Repr, DecidableEq

/-- Modelled from the spec: `UpdateWalk::LockMakeVirtualDirectoryIfModified`
(declared in Walk.hxx, defined outside the provided sources; spec section
4.1 "Virtual Directory Synchronizer").  Given the matching virtual child
(if any) and the playlist file's current modification time: create an
empty flagged child when none exists; return the null sentinel when the
stored timestamp equals the file's; otherwise clear the child's contents
and reuse it with the updated timestamp. -/
def lockMakeVirtualDirectoryIfModified (existing : Option VDir) (mtime : Nat) :
    Option VDir :=
  match existing with
  | none => some ⟨mtime, []⟩
  | some v => if v.mtime = mtime then none else some ⟨mtime, []⟩

/-- Behavior of `OpenReady` + `plugin.open_stream`: outright failure to
yield an enumerator, an exception, or an enumerator producing the given
entries (throwing afterwards when `thenThrow`). -/
inductive StreamSpec where
  | openFail
  | openThrow
  | seq (uris : List String) (thenThrow : Bool)

/-- Whether the middle overload returned normally or dereferenced the null
directory pointer at `directory->IsEmpty()` (line 135). -/
inductive RunOutcome where
  | ok
  | nullDeref
deriving Repr, DecidableEq

/-- Tree-observable state after the middle overload: the parent's songs,
the virtual child present in the tree (with its stored timestamp), and the
run outcome. -/
structure RunResult where
  parentSongs : List Song
  vdir : Option VDir
  outcome : RunOutcome
deriving Repr, DecidableEq

/-- The middle overload `UpdateWalk::UpdatePlaylistFile(Directory &parent,
std::string_view name, const StorageFileInfo &info, const PlaylistPlugin
&plugin)` (lines 104-144).  When the synchronizer returns the null
sentinel, the existing virtual child stays in the tree and every
`directory != nullptr` guard skips its mutation; the unguarded
`directory->IsEmpty()` on that path is recorded as `.nullDeref`.  When the
drain itself deleted the directory (bail / missing target), the subsequent
`directory->IsEmpty()` reads freed memory; at tree level a repeated
`LockDeleteDirectory` is a no-op, so the model returns the deleted state
directly. -/
def updatePlaylistFolder (parent : List Song) (existing : Option VDir)
    (mtime : Nat) (mapped : String) (stat : String → Bool)
    (stream : StreamSpec) : RunResult :=
  let dirPtr := lockMakeVirtualDirectoryIfModified existing mtime
  match stream with
  | .openFail =>
      match dirPtr with
      | some _ => ⟨parent, none, .ok⟩
      | none => ⟨parent, existing, .ok⟩
  | .openThrow =>
      match dirPtr with
      | some _ => ⟨parent, none, .ok⟩
      | none => ⟨parent, existing, .ok⟩
  | .seq uris thenThrow =>
      let r := updatePlaylistFileInner mapped stat parent
        (dirPtr.map (·.songs)) uris thenThrow
      match r.exit with
      | .threw =>
          match dirPtr with
          | some _ => ⟨r.parentSongs, none, .ok⟩
          | none => ⟨r.parentSongs, existing, .ok⟩
      | _ =>
          match dirPtr with
          | none => ⟨r.parentSongs, existing, .nullDeref⟩
          | some _ =>
              match r.dir with
              | none => ⟨r.parentSongs, none, .ok⟩
              | some l =>
                  if l.isEmpty then ⟨r.parentSongs, none, .ok⟩
                  else ⟨r.parentSongs, some ⟨mtime, l⟩, .ok⟩

/-! ## The library tree and the dangling-reference purger -/

mutual
/-- A tree node (`Directory` of db/plugins/simple): name, the flag marking
a virtual playlist directory (`IsPlaylist`), the owned songs, the owned
child directories. -/
inductive Directory where
  | node (dname : String) (isPlaylistFlag : Bool) (dsongs : List Song)
      (dchildren : DirList)

/-- The ordered collection of child directories. -/
inductive DirList where
  | nil
  | cons (d : Directory) (tl : DirList)
end

/-- The directory's name. -/
def Directory.name : Directory → String
  | .node n _ _ _ => n

/-- `Directory::IsPlaylist()`. -/
def Directory.isPlaylist : Directory → Bool
  | .node _ f _ _ => f

/-- The directory's song collection. -/
def Directory.songs : Directory → List Song
  | .node _ _ ss _ => ss

/-- The directory's children. -/
def Directory.children : Directory → DirList
  | .node _ _ _ cs => cs

/-- Where a resolved target lives: the path (list of directory names from
the root of the purged tree) of its directory, and its filename. -/
abbrev SongRef := List String × String

/-- The `ForEachSongSafe` body of `PurgeDanglingFromPlaylists`
(lines 180-195) over one virtual playlist directory's songs, with the
target resolution (`Directory::LookupTargetSong`, declared elsewhere)
abstracted as `res`.  Returns the surviving songs, the references whose
`in_playlist` is set (`target->in_playlist = true`), and whether
`modified` was set. -/
def purgeSongs (res : String → Option SongRef) :
    List Song → List Song × List SongRef × Bool
  | [] => ([], [], false)
  | s :: rest =>
      if (!(s.target == "")) && !(isAbsoluteOrHasScheme s.target) then
        match res s.target with
        | none =>
            -- the target does not exist: remove the virtual song
            let r := purgeSongs res rest
            (r.1, r.2.1, true)
        | some ref =>
            -- the target exists: mark it
            let r := purgeSongs res rest
            (s :: r.1, ref :: r.2.1, r.2.2)
      else
        let r := purgeSongs res rest
        (s :: r.1, r.2.1, r.2.2)

mutual
/-- `UpdateWalk::PurgeDanglingFromPlaylists` (lines 168-196): recurse into
the children first, then, when the directory is flagged as a virtual
playlist directory, run the song pass.  `res` abstracts
`Directory::LookupTargetSong` as a fixed oracle from the directory's path
and the target string; the pass itself never reads `in_playlist`, so the
collected flips are applied once at the top (see
`purgeDanglingFromPlaylists`). -/
def purgeAux (res : List String → String → Option SongRef)
    (path : List String) : Directory → Directory × List SongRef × Bool
  | .node n f ss cs =>
      let rc := purgeAuxList res path cs
      if f then
        let rs := purgeSongs (res path) ss
        (.node n f rs.1 rc.1, rc.2.1 ++ rs.2.1, rc.2.2 || rs.2.2)
      else
        (.node n f ss rc.1, rc.2.1, rc.2.2)

/-- Recursion of the purger over a child list, in order. -/
def purgeAuxList (res : List String → String → Option SongRef)
    (path : List String) : DirList → DirList × List SongRef × Bool
  | .nil => (.nil, [], false)
  | .cons d tl =>
      let rd := purgeAux res (path ++ [d.name]) d
      let rt := purgeAuxList res path tl
      (.cons rd.1 rt.1, rd.2.1 ++ rt.2.1, rd.2.2 || rt.2.2)
end

/-- `target->in_playlist = true` applied to a song when its filename
matches. -/
def flipSong (fname : String) (s : Song) : Song :=
  if s.filename == fname then { s with in_playlist := true } else s

mutual
/-- Set `in_playlist := true` on the songs with the given filename in the
directory reached by the given path. -/
def setFlip : Directory → List String → String → Directory
  | .node n f ss cs, [], fname => .node n f (ss.map (flipSong fname)) cs
  | .node n f ss cs, a :: qs, fname => .node n f ss (setFlipList a qs fname cs)

/-- Apply `setFlip` below the first child carrying the given name. -/
def setFlipList : String → List String → String → DirList → DirList
  | _, _, _, .nil => .nil
  | a, qs, fname, .cons d tl =>
      if d.name == a then .cons (setFlip d qs fname) tl
      else .cons d (setFlipList a qs fname tl)
end

/-- Apply a batch of `in_playlist` flips to the tree. -/
def applyFlips (t : Directory) (fl : List SongRef) : Directory :=
  fl.foldl (fun acc r => setFlip acc r.1 r.2) t

/-- The whole-tree purger pass: post-order traversal, deletion of dangling
virtual songs, and the `in_playlist` marks.  The marks are collected
during the traversal and applied at the end; this is observationally
equal to the in-place `target->in_playlist = true` because nothing in the
pass reads `in_playlist`. -/
def purgeDanglingFromPlaylists (res : List String → String → Option SongRef)
    (root : Directory) : Directory × Bool :=
  let r := purgeAux res [] root
  (applyFlips r.1 r.2.1, r.2.2)

/-- The first child with the given name. -/
def findDir (n : String) : DirList → Option Directory
  | .nil => none
  | .cons d tl => if d.name == n then some d else findDir n tl

/-- The songs of the directory reached by the given path (empty when the
path denotes no directory). -/
def songsAt : Directory → List String → List Song
  | d, [] => d.songs
  | d, n :: rest =>
      match findDir n d.children with
      | some c => songsAt c rest
      | none => []

/-! ## The classifier / dispatcher and the metadata registrar -/

/-- A non-expanding playlist recorded as metadata: file name and source
modification time. -/
structure PlaylistInfo where
  pname : String
  pmtime : Nat
deriving Repr, DecidableEq

/-- Modelled from the spec: `PlaylistVector::UpdateOrInsert`
(db/PlaylistVector.cxx, not under the provided sources; spec section 4.4):
upsert by name, returning whether the entry was new or carried a different
modification time. -/
def updateOrInsert : List PlaylistInfo → PlaylistInfo → List PlaylistInfo × Bool
  | [], pi => ([pi], true)
  | p :: rest, pi =>
      if p.pname = pi.pname then
        if p.pmtime = pi.pmtime then (p :: rest, false)
        else (⟨p.pname, pi.pmtime⟩ :: rest, true)
      else
        let r := updateOrInsert rest pi
        (p :: r.1, r.2)

/-- What `FindPlaylistPluginBySuffix` + `GetPlaylistPluginAsFolder` report
for the file's suffix. -/
inductive PluginKind where
  | folder
  | flat
deriving Repr, DecidableEq

/-- The observable state of the parent directory for the dispatcher. -/
structure DirState where
  songs : List Song
  children : DirList
  playlists : List PlaylistInfo

/-- The dispatcher overload `UpdateWalk::UpdatePlaylistFile(Directory
&directory, std::string_view name, std::string_view suffix, const
StorageFileInfo &info)` (lines 146-166).  `plugin` is the plugin lookup
result; `folderEffect` abstracts the folder-expanding delegate (the middle
overload).  Returns the new state, the `modified` flag, and whether the
file was recognized as a playlist. -/
def updatePlaylistFileTop (plugin : Option PluginKind)
    (folderEffect : DirState → DirState) (st : DirState)
    (fname : String) (mtime : Nat) (modified : Bool) :
    DirState × Bool × Bool :=
  match plugin with
  | none => (st, modified, false)
  | some .folder => (folderEffect st, modified, true)
  | some .flat =>
      let r := updateOrInsert st.playlists ⟨fname, mtime⟩
      ({ st with playlists := r.1 }, modified || r.2, true)

/-! ## Concrete fixtures used by counterexamples and witnesses -/

/-- A tree whose real song `x.mp3` carries a stale `in_playlist` mark
while the only virtual playlist directory is empty, so no virtual song
references it. -/
def staleFlagTree : Directory :=
  .node "root" false [Song.mk "x.mp3" "" true]
    (.cons (.node "pl" true [] .nil) .nil)

/-- A target resolver that resolves `../a.mp3` to the real song `a.mp3`
of the parent and nothing else. -/
def resolveA : List String → String → Option SongRef :=
  fun _ t => if t == "../a.mp3" then some ([], "a.mp3") else none

/-- A virtual song referencing `../a.mp3`. -/
def vSongA : Song := Song.mk "track0001" "../a.mp3" false

end MpdPlaylist

namespace MpdPlaylist

/-! ## Theorems settling the claims -/

/-- C9: the absent-directory case is reachable — with an unchanged
playlist (stored mtime 5 equals the file's, so the synchronizer returns
the null sentinel), an opened stream, and a sequence that drains with
neither an exception nor a hard stop, the run reaches
`directory->IsEmpty()` (line 135) with the null directory, the one
access on this path without the `directory != nullptr` guard used
everywhere else. -/
theorem c9_null_deref_reachable :
    (updatePlaylistFolder [] (some (VDir.mk 5 [])) 5 "m" (fun _ => true)
      (StreamSpec.seq [] false)).outcome = RunOutcome.nullDeref := rfl

/-- C4: the failure input refuting the claim, evaluated on the model.
The playlist is unchanged (the synchronizer returns the null sentinel),
the stream opens, and the single produced entry's target fails the
existence probe — a missing-target failure.  The claim says every such
failure ends in rollback and a normal return; instead the loop breaks
(the null guard skips the rollback) and control reaches the unguarded
`directory->IsEmpty()` null dereference. -/
theorem c4_missing_target_null_deref :
    (updatePlaylistFolder []
      (some (VDir.mk 5 [Song.mk "track0001" "../x.mp3" false])) 5 "m"
      (fun _ => false) (StreamSpec.seq ["x.mp3"] false)).outcome
      = RunOutcome.nullDeref := rfl

/-- C1 counterexample: the synchronizer returns the do-not-re-expand
sentinel (stored mtime 7 equals the file's), yet running synchronization
against the sequence `["a.mp3"]` removes the parent's real song `a.mp3`
— the override removal (lines 95-99) is not guarded by
`directory != nullptr` — so "performs no tree mutation at all" is false. -/
theorem c1_counterexample :
    (updatePlaylistFolder [Song.mk "a.mp3" "" false]
        (some (VDir.mk 7 [vSongA])) 7 "m"
        (fun _ => true) (StreamSpec.seq ["a.mp3"] false)).parentSongs = [] ∧
    ([Song.mk "a.mp3" "" false] : List Song) ≠ [] := ⟨rfl, by decide⟩

/-- C2 counterexample: for the sequence `[A, bail, B]` with `A = "a.mp3"`
resolving successfully (the probe accepts every path), the virtual
directory does not survive: the bail handler (lines 57-62) deletes it
entirely, contradicting "the virtual Directory still exists and contains
only the synthetic entry produced for A".  `consumed = 2` records that
`B` was never read. -/
theorem c2_counterexample :
    (updatePlaylistFileInner "m" (fun _ => true) [] (some [])
        ["a.mp3", "mpd://bail", "b.mp3"] false).dir = none ∧
    (updatePlaylistFileInner "m" (fun _ => true) [] (some [])
        ["a.mp3", "mpd://bail", "b.mp3"] false).consumed = 2 := ⟨rfl, rfl⟩

/-- C3 counterexample: in `staleFlagTree` the real song `x.mp3` has
`in_playlist = true` left over from an earlier run and no virtual song
resolves to it (the only playlist directory is empty).  After a full
purger pass the flag is still true: the pass never clears `in_playlist`,
so the claimed clear-and-recompute (flag false afterwards) is refuted. -/
theorem c3_counterexample :
    songsAt (purgeDanglingFromPlaylists (fun _ _ => none) staleFlagTree).1 []
      = [Song.mk "x.mp3" "" true] ∧
    songsAt (purgeDanglingFromPlaylists (fun _ _ => none) staleFlagTree).1 ["pl"]
      = [] := ⟨rfl, rfl⟩

/-- C6 counterexample: for the absolute entry URI `/abs/x.mp3` the
existence probe is performed on the parent's mapped path joined with the
URI (`/music//abs/x.mp3`, line 82), not on the URI itself, refuting "the
path checked for existence is that URI itself". -/
theorem c6_counterexample :
    (updatePlaylistFileInner "/music" (fun _ => true) [] (some [])
        ["/abs/x.mp3"] false).probed = ["/music//abs/x.mp3"] ∧
    isAbsoluteOrHasScheme "/abs/x.mp3" = true ∧
    ("/music//abs/x.mp3" : String) ≠ "/abs/x.mp3" := ⟨rfl, rfl, by decide⟩

/-- C2 amended: for a sequence `[A, bail, B]` (A not the sentinel), the
bail hard stop deletes the virtual Directory entirely — whether or not
`A` resolved — and `B` is never read from the sequence (at most two
entries are consumed). -/
theorem c2_amended (mapped : String) (stat : String → Bool) (parent : List Song)
    (ds : List Song) (A B : String) (tt : Bool) (hA : A ≠ "mpd://bail") :
    (updatePlaylistFileInner mapped stat parent (some ds) [A, "mpd://bail", B] tt).dir
      = none ∧
    (updatePlaylistFileInner mapped stat parent (some ds) [A, "mpd://bail", B] tt).consumed
      ≤ 2 := by
  by_cases h : stat (mapped ++ "/" ++ A)
  · cases hl : (buildSongMap parent).lookup A
    · simp [updatePlaylistFileInner, drainLoop, hA, h, hl]
    · simp [updatePlaylistFileInner, drainLoop, hA, h, hl]
  · simp [updatePlaylistFileInner, drainLoop, hA, h]

/-- Witness for `c2_amended` at a concrete input. -/
theorem c2_amended_witness :
    (updatePlaylistFileInner "m" (fun _ => true) [] (some [])
        ["x.mp3", "mpd://bail", "y.mp3"] false).dir = none ∧
    (updatePlaylistFileInner "m" (fun _ => true) [] (some [])
        ["x.mp3", "mpd://bail", "y.mp3"] false).consumed ≤ 2 :=
  c2_amended "m" (fun _ => true) [] [] "x.mp3" "y.mp3" false (by decide)

/-- C1 amended: when the synchronizer returns the do-not-re-expand
sentinel (the stored timestamp equals the file's), the existing virtual
Directory itself is never touched — it survives the run with its contents
intact on every stream outcome — although the parent's song collection
may still lose real songs to the override removal (see
`c1_counterexample`). -/
theorem c1_amended (parent : List Song) (v : VDir) (mtime : Nat) (mapped : String)
    (stat : String → Bool) (stream : StreamSpec) (h : v.mtime = mtime) :
    (updatePlaylistFolder parent (some v) mtime mapped stat stream).vdir = some v := by
  unfold updatePlaylistFolder lockMakeVirtualDirectoryIfModified
  simp only [if_pos h]
  cases stream with
  | openFail => rfl
  | openThrow => rfl
  | seq uris tt =>
      simp only [Option.map_none']
      cases hE : (updatePlaylistFileInner mapped stat parent none uris tt).exit <;>
        simp [hE]

/-- Witness for `c1_amended` at a concrete input. -/
theorem c1_amended_witness :
    (updatePlaylistFolder [] (some (VDir.mk 7 [vSongA])) 7 "m" (fun _ => true)
        (StreamSpec.seq ["a.mp3"] false)).vdir = some (VDir.mk 7 [vSongA]) :=
  c1_amended [] (VDir.mk 7 [vSongA]) 7 "m" (fun _ => true)
    (StreamSpec.seq ["a.mp3"] false) rfl

/-- Every path handed to the `stat` probe by the drain loop is the
parent's mapped path joined with one of the sequence's URIs. -/
theorem drainLoop_probed (mapped : String) (stat : String → Bool) :
    ∀ (uris : List String) (songMap : List (String × Song)) (parent : List Song)
      (dir : Option (List Song)) (track : Nat) (tt : Bool),
      ∀ p ∈ (drainLoop mapped stat songMap parent dir track uris tt).probed,
        ∃ uri ∈ uris, p = mapped ++ "/" ++ uri := by
  intro uris
  induction uris with
  | nil => intro _ _ _ _ _ p hp; simp [drainLoop] at hp
  | cons uri rest ih =>
      intro songMap parent dir track tt p hp
      by_cases hb : uri = "mpd://bail"
      · simp [drainLoop, hb] at hp
      · by_cases h : stat (mapped ++ "/" ++ uri)
        · rcases hl : (songMap.lookup uri) with _ | s
          · simp only [drainLoop, if_neg hb, if_pos h, hl] at hp
            rcases List.mem_cons.mp hp with hp | hp
            · exact ⟨uri, by simp, hp⟩
            · obtain ⟨u, hu, he⟩ := ih _ _ _ _ _ p hp
              exact ⟨u, by simp [hu], he⟩
          · simp only [drainLoop, if_neg hb, if_pos h, hl] at hp
            rcases List.mem_cons.mp hp with hp | hp
            · exact ⟨uri, by simp, hp⟩
            · obtain ⟨u, hu, he⟩ := ih _ _ _ _ _ p hp
              exact ⟨u, by simp [hu], he⟩
        · simp only [drainLoop, if_neg hb, if_neg h] at hp
          rcases List.mem_cons.mp hp with hp | hp
          · exact ⟨uri, by simp, hp⟩
          · simp at hp

/-- C6 amended: the existence probe is always performed on the parent's
mapped storage path joined with the entry's URI — also for absolute or
scheme-qualified URIs (the absoluteness check affects only the stored
target, see `c6_counterexample`). -/
theorem c6_amended (mapped : String) (stat : String → Bool) (parent : List Song)
    (dir : Option (List Song)) (uris : List String) (tt : Bool) :
    ∀ p ∈ (updatePlaylistFileInner mapped stat parent dir uris tt).probed,
      ∃ uri ∈ uris, p = mapped ++ "/" ++ uri :=
  drainLoop_probed mapped stat uris (buildSongMap parent) parent dir 0 tt

/-- Witness for `c6_amended` at a concrete input. -/
theorem c6_amended_witness :
    ∃ uri ∈ ["/abs/x.mp3"], "/music//abs/x.mp3" = "/music" ++ "/" ++ uri :=
  c6_amended "/music" (fun _ => true) [] (some []) ["/abs/x.mp3"] false
    "/music//abs/x.mp3" (by decide)

/-- A successful `List.lookup` key is among the map's keys. -/
theorem lookup_mem_keys :
    ∀ (m : List (String × Song)) (k : String) (v : Song),
      m.lookup k = some v → k ∈ m.map Prod.fst := by
  intro m
  induction m with
  | nil => intro k v h; simp [List.lookup] at h
  | cons kv rest ih =>
      obtain ⟨k1, v1⟩ := kv
      intro k v h
      simp only [List.lookup] at h
      cases hk : k == k1 with
      | true =>
          simp only [List.map_cons, List.mem_cons]
          exact Or.inl (eq_of_beq hk)
      | false =>
          rw [hk] at h
          simp only [List.map_cons, List.mem_cons]
          exact Or.inr (ih k v h)

/-- A successful `List.lookup` result is an entry of the map. -/
theorem lookup_mem_pair :
    ∀ (m : List (String × Song)) (k : String) (v : Song),
      m.lookup k = some v → (k, v) ∈ m := by
  intro m
  induction m with
  | nil => intro k v h; simp [List.lookup] at h
  | cons kv rest ih =>
      obtain ⟨k1, v1⟩ := kv
      intro k v h
      simp only [List.lookup] at h
      cases hk : k == k1 with
      | true =>
          rw [hk] at h
          simp only [Option.some.injEq] at h
          subst h
          simp [eq_of_beq hk]
      | false =>
          rw [hk] at h
          exact List.mem_cons_of_mem _ (ih k v h)

/-- Keys of `mapErase m k` are keys of `m` other than `k`. -/
theorem mem_keys_mapErase :
    ∀ (m : List (String × Song)) (k x : String),
      x ∈ (mapErase m k).map Prod.fst → x ∈ m.map Prod.fst ∧ x ≠ k := by
  intro m k x hx
  simp only [mapErase, List.mem_map, List.mem_filter] at hx
  obtain ⟨kv, ⟨hmem, hne⟩, hfst⟩ := hx
  simp only [decide_eq_true_eq] at hne
  subst hfst
  exact ⟨List.mem_map.mpr ⟨kv, hmem, rfl⟩, hne⟩

/-- The removal log is duplicate-free and drawn from the snapshot's keys:
each removal erases its map entry, so a later identical target finds no
match. -/
theorem drainLoop_removals (mapped : String) (stat : String → Bool) :
    ∀ (uris : List String) (songMap : List (String × Song)) (parent : List Song)
      (dir : Option (List Song)) (track : Nat) (tt : Bool),
      (drainLoop mapped stat songMap parent dir track uris tt).removals.Nodup ∧
      ∀ x ∈ (drainLoop mapped stat songMap parent dir track uris tt).removals,
        x ∈ songMap.map Prod.fst := by
  intro uris
  induction uris with
  | nil => intro songMap _ _ _ _; constructor <;> simp [drainLoop]
  | cons uri rest ih =>
      intro songMap parent dir track tt
      by_cases hb : uri = "mpd://bail"
      · constructor <;> simp [drainLoop, hb]
      · by_cases h : stat (mapped ++ "/" ++ uri)
        · rcases hl : (songMap.lookup uri) with _ | s
          · simp only [drainLoop, if_neg hb, if_pos h, hl]
            exact ih songMap parent _ _ tt
          · simp only [drainLoop, if_neg hb, if_pos h, hl]
            obtain ⟨ihn, ihs⟩ := ih (mapErase songMap uri) (parent.erase s) _ _ tt
            constructor
            · refine List.Nodup.cons ?_ ihn
              intro hmem
              exact ((mem_keys_mapErase songMap uri uri) (ihs uri hmem)).2 rfl
            · intro x hx
              rcases List.mem_cons.mp hx with hx | hx
              · subst hx; exact lookup_mem_keys songMap x s hl
              · exact ((mem_keys_mapErase songMap uri x) (ihs x hx)).1
        · constructor <;> simp [drainLoop, hb, h]

/-- C10: within one expansion run each real Song of the parent is removed
at most once, even when several playlist entries share the same target
filename: the removal log never repeats a filename, because the snapshot
map's entry is erased immediately after each removal, so a later entry
with an identical target finds no match. -/
theorem c10_single_removal (mapped : String) (stat : String → Bool)
    (parent : List Song) (dir : Option (List Song)) (uris : List String)
    (tt : Bool) :
    (updatePlaylistFileInner mapped stat parent dir uris tt).removals.Nodup :=
  (drainLoop_removals mapped stat uris (buildSongMap parent) parent dir 0 tt).1

/-- The upsert reports a change exactly when the entry was new or carried
a different modification time (first match by name). -/
theorem updateOrInsert_changed (v : List PlaylistInfo) (pi : PlaylistInfo) :
    (updateOrInsert v pi).2
      = ((v.find? (fun p => p.pname == pi.pname)).all
          (fun p => p.pmtime != pi.pmtime)) := by
  induction v with
  | nil => rfl
  | cons p rest ih =>
      by_cases h : p.pname = pi.pname
      · by_cases hm : p.pmtime = pi.pmtime
        · simp [updateOrInsert, h, hm, List.find?_cons]
        · simp [updateOrInsert, h, hm, List.find?_cons]
      · simp [updateOrInsert, h, List.find?_cons, ih]

/-- After the upsert, the collection holds the upserted name with the new
modification time. -/
theorem updateOrInsert_find (v : List PlaylistInfo) (pi : PlaylistInfo) :
    (updateOrInsert v pi).1.find? (fun p => p.pname == pi.pname)
      = some ⟨pi.pname, pi.pmtime⟩ := by
  obtain ⟨n0, m0⟩ := pi
  induction v with
  | nil => simp [updateOrInsert, List.find?_cons]
  | cons p rest ih =>
      obtain ⟨pn, pm⟩ := p
      by_cases h : pn = n0
      · subst h
        by_cases hm : pm = m0
        · subst hm
          simp [updateOrInsert, List.find?_cons]
        · simp [updateOrInsert, hm, List.find?_cons]
      · simp only [updateOrInsert, if_neg (by simpa using h)]
        simp [List.find?_cons, h, ih]

/-- C8: for a non-folder-expanding plugin the dispatcher upserts a
PlaylistInfo keyed by file name into the parent's playlist collection,
sets `modified` exactly when the entry was new or had a different
timestamp (on top of its previous value), leaves every Song and child
Directory unchanged, and returns true; any recognized plugin kind makes
the dispatcher return true. -/
theorem c8_registrar (fe : DirState → DirState) (st : DirState)
    (nm : String) (mtime : Nat) (modified : Bool) :
    ((updatePlaylistFileTop (some .flat) fe st nm mtime modified).1.songs = st.songs) ∧
    ((updatePlaylistFileTop (some .flat) fe st nm mtime modified).1.children = st.children) ∧
    ((updatePlaylistFileTop (some .flat) fe st nm mtime modified).1.playlists.find?
        (fun p => p.pname == nm) = some ⟨nm, mtime⟩) ∧
    ((updatePlaylistFileTop (some .flat) fe st nm mtime modified).2.1
        = (modified || ((st.playlists.find? (fun p => p.pname == nm)).all
            (fun p => p.pmtime != mtime)))) ∧
    ((updatePlaylistFileTop (some .flat) fe st nm mtime modified).2.2 = true) ∧
    (∀ k, (updatePlaylistFileTop (some k) fe st nm mtime modified).2.2 = true) := by
  refine ⟨rfl, rfl, ?_, ?_, rfl, ?_⟩
  · exact updateOrInsert_find st.playlists ⟨nm, mtime⟩
  · show (modified || (updateOrInsert st.playlists ⟨nm, mtime⟩).2) = _
    rw [updateOrInsert_changed]
  · intro k; cases k <;> rfl

/-- An eligible song whose target does not resolve is dropped by the song
pass — every occurrence of its value is deleted. -/
theorem purgeSongs_not_mem (res1 : String → Option SongRef) (s : Song)
    (ht : s.target ≠ "") (ha : isAbsoluteOrHasScheme s.target = false)
    (hr : res1 s.target = none) :
    ∀ ss : List Song, s ∉ (purgeSongs res1 ss).1 := by
  intro ss
  induction ss with
  | nil => simp [purgeSongs]
  | cons t rest ih =>
      by_cases hc : (!(t.target == "")) && !(isAbsoluteOrHasScheme t.target)
      · rcases hrt : res1 t.target with _ | ref
        · simpa [purgeSongs, hc, hrt] using ih
        · simp only [purgeSongs, hc, hrt, if_pos]
          intro hmem
          rcases List.mem_cons.mp hmem with he | hmem2
          · subst he
            rw [hrt] at hr
            exact Option.noConfusion hr
          · exact ih hmem2
      · simp only [purgeSongs, if_neg hc]
        intro hmem
        rcases List.mem_cons.mp hmem with he | hmem2
        · subst he
          apply hc
          simp [ht, ha]
        · exact ih hmem2

/-- Deleting an eligible unresolved song sets the modified flag of the
song pass. -/
theorem purgeSongs_modified (res1 : String → Option SongRef) (s : Song)
    (ht : s.target ≠ "") (ha : isAbsoluteOrHasScheme s.target = false)
    (hr : res1 s.target = none) :
    ∀ ss : List Song, s ∈ ss → (purgeSongs res1 ss).2.2 = true := by
  intro ss
  induction ss with
  | nil => simp
  | cons t rest ih =>
      intro hmem
      rcases List.mem_cons.mp hmem with he | hmem2
      · subst he
        simp [purgeSongs, ht, ha, hr]
      · by_cases hc : (!(t.target == "")) && !(isAbsoluteOrHasScheme t.target)
        · rcases hrt : res1 t.target with _ | ref
          · simp [purgeSongs, hc, hrt]
          · simp [purgeSongs, hc, hrt, ih hmem2]
        · simp [purgeSongs, hc, ih hmem2]

/-- An eligible song whose target resolves survives the song pass and its
resolved reference is recorded for the `in_playlist` mark. -/
theorem purgeSongs_resolved (res1 : String → Option SongRef) (s : Song)
    (ref : SongRef)
    (ht : s.target ≠ "") (ha : isAbsoluteOrHasScheme s.target = false)
    (hr : res1 s.target = some ref) :
    ∀ ss : List Song, s ∈ ss →
      s ∈ (purgeSongs res1 ss).1 ∧ ref ∈ (purgeSongs res1 ss).2.1 := by
  intro ss
  induction ss with
  | nil => simp
  | cons t rest ih =>
      intro hmem
      rcases List.mem_cons.mp hmem with he | hmem2
      · subst he
        simp [purgeSongs, ht, ha, hr]
      · by_cases hc : (!(t.target == "")) && !(isAbsoluteOrHasScheme t.target)
        · rcases hrt : res1 t.target with _ | ref2
          · obtain ⟨h1, h2⟩ := ih hmem2
            simp only [purgeSongs, hc, hrt, if_pos]
            exact ⟨h1, h2⟩
          · obtain ⟨h1, h2⟩ := ih hmem2
            simp only [purgeSongs, hc, hrt, if_pos]
            exact ⟨List.mem_cons_of_mem _ h1, List.mem_cons_of_mem _ h2⟩
        · obtain ⟨h1, h2⟩ := ih hmem2
          simp only [purgeSongs, if_neg hc]
          exact ⟨List.mem_cons_of_mem _ h1, h2⟩

/-- C7: during the Purger's pass over a Directory flagged as a virtual
playlist directory, every Song whose target is non-empty and not
absolute/scheme-qualified is deleted with the modified flag set when its
target does not resolve; when it resolves, the Song is kept and exactly
the resolved reference is recorded among the `in_playlist` flips applied
by `purgeDanglingFromPlaylists` (the flips set the flag to true at the
resolved location and nowhere else). -/
theorem c7_dangling_cleanup (res : List String → String → Option SongRef)
    (path : List String) (n : String) (ss : List Song) (cs : DirList)
    (s : Song) (hs : s ∈ ss) (ht : s.target ≠ "")
    (ha : isAbsoluteOrHasScheme s.target = false) :
    (res path s.target = none →
        s ∉ (purgeAux res path (.node n true ss cs)).1.songs ∧
        (purgeAux res path (.node n true ss cs)).2.2 = true) ∧
    (∀ ref, res path s.target = some ref →
        s ∈ (purgeAux res path (.node n true ss cs)).1.songs ∧
        ref ∈ (purgeAux res path (.node n true ss cs)).2.1) := by
  constructor
  · intro hr
    constructor
    · show s ∉ (purgeSongs (res path) ss).1
      exact purgeSongs_not_mem (res path) s ht ha hr ss
    · show ((purgeAuxList res path cs).2.2 || (purgeSongs (res path) ss).2.2) = true
      rw [purgeSongs_modified (res path) s ht ha hr ss hs]
      exact Bool.or_true _
  · intro ref hr
    obtain ⟨h1, h2⟩ := purgeSongs_resolved (res path) s ref ht ha hr ss hs
    constructor
    · exact h1
    · show ref ∈ (purgeAuxList res path cs).2.1 ++ (purgeSongs (res path) ss).2.1
      exact List.mem_append_right _ h2

/-- Witness for `c7_dangling_cleanup` at a concrete input. -/
theorem c7_dangling_cleanup_witness :
    vSongA ∈ (purgeAux resolveA [] (.node "pl" true [vSongA] .nil)).1.songs ∧
    (([], "a.mp3") : SongRef)
      ∈ (purgeAux resolveA [] (.node "pl" true [vSongA] .nil)).2.1 :=
  (c7_dangling_cleanup resolveA [] "pl" [vSongA] .nil vSongA (by decide)
    (by decide) (by decide)).2 ([], "a.mp3") rfl

/-- Entries of `mapInsert m k v` are entries of `m` or the new pair. -/
theorem mem_mapInsert (m : List (String × Song)) (k : String) (v : Song) :
    ∀ kv ∈ mapInsert m k v, kv ∈ m ∨ kv = (k, v) := by
  intro kv hkv
  rcases List.mem_append.mp hkv with hkv | hkv
  · exact Or.inl (List.mem_filter.mp hkv).1
  · exact Or.inr (List.mem_singleton.mp hkv)

/-- Looking up the freshly inserted key yields the inserted value. -/
theorem lookup_mapInsert_self (m : List (String × Song)) (k : String) (v : Song) :
    (mapInsert m k v).lookup k = some v := by
  induction m with
  | nil => simp [mapInsert, List.lookup]
  | cons kv rest ih =>
      by_cases hk : kv.1 = k
      · simpa [mapInsert, hk] using (by simpa [mapInsert] using ih)
      · have h1 : mapInsert (kv :: rest) k v = kv :: mapInsert rest k v := by
          simp [mapInsert, hk]
        rw [h1]
        simp only [List.lookup]
        have hbeq : (k == kv.1) = false := by
          simp [Ne.symm hk]
        rw [hbeq]
        exact ih

/-- Insertion under another key does not disturb a lookup. -/
theorem lookup_mapInsert_ne (m : List (String × Song)) (k X : String) (v : Song)
    (hne : X ≠ k) : (mapInsert m k v).lookup X = m.lookup X := by
  induction m with
  | nil =>
      simp only [mapInsert, List.filter_nil, List.nil_append, List.lookup]
      have hbeq : (X == k) = false := by simp [hne]
      rw [hbeq]
  | cons kv rest ih =>
      by_cases hk : kv.1 = k
      · have h1 : mapInsert (kv :: rest) k v = mapInsert rest k v := by
          simp [mapInsert, hk]
        rw [h1, ih]
        simp only [List.lookup]
        have hbeq : (X == kv.1) = false := by
          simp [hk, hne]
        rw [hbeq]
      · have h1 : mapInsert (kv :: rest) k v = kv :: mapInsert rest k v := by
          simp [mapInsert, hk]
        rw [h1]
        simp only [List.lookup]
        cases hbeq : X == kv.1 with
        | true => rfl
        | false => rw [ih]

/-- Erasure under another key does not disturb a lookup. -/
theorem lookup_mapErase_ne (m : List (String × Song)) (k X : String)
    (hne : X ≠ k) : (mapErase m k).lookup X = m.lookup X := by
  induction m with
  | nil => simp [mapErase]
  | cons kv rest ih =>
      by_cases hk : kv.1 = k
      · have h1 : mapErase (kv :: rest) k = mapErase rest k := by
          simp [mapErase, hk]
        rw [h1, ih]
        simp only [List.lookup]
        have hbeq : (X == kv.1) = false := by simp [hk, hne]
        rw [hbeq]
      · have h1 : mapErase (kv :: rest) k = kv :: mapErase rest k := by
          simp [mapErase, hk]
        rw [h1]
        simp only [List.lookup]
        cases hbeq : X == kv.1 with
        | true => rfl
        | false => rw [ih]

/-- The snapshot stores, under each key, a parent song carrying that key
as its filename. -/
theorem buildSongMap_snap (parent : List Song) :
    ∀ kv ∈ buildSongMap parent, kv.2 ∈ parent ∧ kv.2.filename = kv.1 := by
  have aux : ∀ (ss : List Song) (m : List (String × Song)),
      (∀ kv ∈ m, kv.2 ∈ parent ∧ kv.2.filename = kv.1) →
      (∀ s ∈ ss, s ∈ parent) →
      ∀ kv ∈ ss.foldl (fun m s => mapInsert m s.filename s) m,
        kv.2 ∈ parent ∧ kv.2.filename = kv.1 := by
    intro ss
    induction ss with
    | nil => intro m hm _ kv hkv; exact hm kv hkv
    | cons s rest ih =>
        intro m hm hss kv hkv
        refine ih (mapInsert m s.filename s) ?_
          (fun t ht => hss t (List.mem_cons_of_mem _ ht)) kv hkv
        intro kv2 hkv2
        rcases mem_mapInsert m s.filename s kv2 hkv2 with h2 | h2
        · exact hm kv2 h2
        · subst h2; exact ⟨hss s (List.mem_cons_self _ _), rfl⟩
  intro kv hkv
  exact aux parent [] (by simp) (fun s hs => hs) kv hkv

/-- A filename present among the parent's songs is present in the
snapshot. -/
theorem buildSongMap_lookup_isSome (parent : List Song) (X : String)
    (hX : ∃ s ∈ parent, s.filename = X) :
    ∃ v, (buildSongMap parent).lookup X = some v := by
  have aux : ∀ (ss : List Song) (m : List (String × Song)),
      ((∃ v, m.lookup X = some v) ∨ ∃ s ∈ ss, s.filename = X) →
      ∃ v, (ss.foldl (fun m s => mapInsert m s.filename s) m).lookup X = some v := by
    intro ss
    induction ss with
    | nil =>
        intro m hm
        rcases hm with hm | hm
        · exact hm
        · simp at hm
    | cons s rest ih =>
        intro m hm
        apply ih (mapInsert m s.filename s)
        by_cases hX2 : s.filename = X
        · left
          subst hX2
          exact ⟨s, lookup_mapInsert_self m s.filename s⟩
        · rcases hm with ⟨v, hv⟩ | ⟨t, ht, hft⟩
          · left
            refine ⟨v, ?_⟩
            rw [lookup_mapInsert_ne m s.filename X s (fun he => hX2 he.symm)]
            exact hv
          · rcases List.mem_cons.mp ht with he | ht2
            · subst he; exact absurd hft hX2
            · exact Or.inr ⟨t, ht2, hft⟩
  exact aux parent [] (Or.inr hX)

/-- Removing the unique song with a given filename leaves no song with
that filename. -/
theorem erase_filename_not_mem (X : String) :
    ∀ (parent : List Song), (parent.map Song.filename).Nodup →
      ∀ s ∈ parent, s.filename = X →
      X ∉ (parent.erase s).map Song.filename := by
  intro parent
  induction parent with
  | nil => intro _ s hs; simp at hs
  | cons t rest ih =>
      intro hnd s hs hf
      by_cases hts : t = s
      · subst hts
        rw [List.erase_cons_head]
        rw [List.map_cons] at hnd
        have := (List.nodup_cons.mp hnd).1
        rw [hf] at this
        exact this
      · have hbeq : (t == s) = false := by simp [hts]
        rw [List.erase_cons, hbeq]
        simp only [Bool.false_eq_true, if_false]
        have hsr : s ∈ rest := by
          rcases List.mem_cons.mp hs with he | h2
          · exact absurd he.symm hts
          · exact h2
        rw [List.map_cons] at hnd
        obtain ⟨hhead, htail⟩ := List.nodup_cons.mp hnd
        rw [List.map_cons, List.mem_cons]
        rintro (he | hmem)
        · apply hhead
          rw [← he, ← hf]
          exact List.mem_map.mpr ⟨s, hsr, rfl⟩
        · exact ih htail s hsr hf hmem

/-- The drain loop only ever removes parent songs. -/
theorem drainLoop_parent_sublist (mapped : String) (stat : String → Bool) :
    ∀ (uris : List String) (m : List (String × Song)) (parent : List Song)
      (dir : Option (List Song)) (track : Nat) (tt : Bool),
      (drainLoop mapped stat m parent dir track uris tt).parentSongs.Sublist
        parent := by
  intro uris
  induction uris with
  | nil => intro m parent dir track tt; simp [drainLoop]
  | cons uri rest ih =>
      intro m parent dir track tt
      by_cases hb : uri = "mpd://bail"
      · simp [drainLoop, hb]
      · by_cases h : stat (mapped ++ "/" ++ uri)
        · rcases hl : (m.lookup uri) with _ | s
          · simp only [drainLoop, if_neg hb, if_pos h, hl]
            exact ih m parent _ _ tt
          · simp only [drainLoop, if_neg hb, if_pos h, hl]
            exact (ih _ (parent.erase s) _ _ tt).trans (List.erase_sublist s parent)
        · simp [drainLoop, hb, h]

/-- A filename both among the sequence's entries and in the snapshot is
absent from the parent's songs after a full (finished) drain: the
override removal took it out and nothing puts it back. -/
theorem drainLoop_removes_filename (mapped : String) (stat : String → Bool)
    (X : String) :
    ∀ (uris : List String) (m : List (String × Song)) (parent : List Song)
      (dir : Option (List Song)) (track : Nat) (tt : Bool),
      (drainLoop mapped stat m parent dir track uris tt).exit = DrainExit.finished →
      X ∈ uris →
      (∀ kv ∈ m, kv.2 ∈ parent ∧ kv.2.filename = kv.1) →
      (parent.map Song.filename).Nodup →
      ((∃ v, m.lookup X = some v) ∨ X ∉ parent.map Song.filename) →
      X ∉ (drainLoop mapped stat m parent dir track uris tt).parentSongs.map
        Song.filename := by
  intro uris
  induction uris with
  | nil => intro _ _ _ _ _ _ hX; simp at hX
  | cons uri rest ih =>
      intro m parent dir track tt hfin hX hsnap hnd hdisj
      by_cases hb : uri = "mpd://bail"
      · simp [drainLoop, hb] at hfin
      · by_cases h : stat (mapped ++ "/" ++ uri)
        · rcases hl : (m.lookup uri) with _ | s
          · simp only [drainLoop, if_neg hb, if_pos h, hl] at hfin ⊢
            rcases List.mem_cons.mp hX with hXu | hXr
            · subst hXu
              have hout : X ∉ parent.map Song.filename := by
                rcases hdisj with ⟨v, hv⟩ | hout
                · rw [hl] at hv; exact Option.noConfusion hv
                · exact hout
              intro hmem
              exact hout (((drainLoop_parent_sublist mapped stat rest m parent _ _
                tt).map Song.filename).mem hmem)
            · exact ih m parent _ _ tt hfin hXr hsnap hnd hdisj
          · have hpair := lookup_mem_pair m uri s hl
            obtain ⟨hsp, hsf⟩ := hsnap (uri, s) hpair
            simp only [drainLoop, if_neg hb, if_pos h, hl] at hfin ⊢
            have hsnap2 : ∀ kv ∈ mapErase m uri,
                kv.2 ∈ parent.erase s ∧ kv.2.filename = kv.1 := by
              intro kv hkv
              have hkv2 : kv ∈ m ∧ kv.1 ≠ uri := by
                simp only [mapErase, List.mem_filter, decide_eq_true_eq] at hkv
                exact hkv
              obtain ⟨hmem2, hfil2⟩ := hsnap kv hkv2.1
              refine ⟨(List.mem_erase_of_ne ?_).mpr hmem2, hfil2⟩
              intro he
              exact hkv2.2 (by rw [← hfil2, he, hsf])
            have hnd2 : ((parent.erase s).map Song.filename).Nodup :=
              ((List.erase_sublist s parent).map Song.filename).nodup hnd
            rcases List.mem_cons.mp hX with hXu | hXr
            · subst hXu
              have hout : X ∉ (parent.erase s).map Song.filename :=
                erase_filename_not_mem X parent hnd s hsp hsf
              intro hmem
              exact hout (((drainLoop_parent_sublist mapped stat rest _ _ _ _
                tt).map Song.filename).mem hmem)
            · refine ih _ (parent.erase s) _ _ tt hfin hXr hsnap2 hnd2 ?_
              rcases hdisj with ⟨v, hv⟩ | hout
              · by_cases hXuri : X = uri
                · subst hXuri
                  right
                  exact erase_filename_not_mem X parent hnd s hsp hsf
                · left
                  exact ⟨v, by rw [lookup_mapErase_ne m uri X hXuri]; exact hv⟩
              · right
                intro hmem
                exact hout (((List.erase_sublist s parent).map Song.filename).mem hmem)
        · simp [drainLoop, hb, h] at hfin

/-- A finished drain with a live directory pointer only ever appends to
the virtual directory's songs. -/
theorem drainLoop_dir_mono (mapped : String) (stat : String → Bool) :
    ∀ (uris : List String) (m : List (String × Song)) (parent : List Song)
      (ds : List Song) (track : Nat) (tt : Bool),
      (drainLoop mapped stat m parent (some ds) track uris tt).exit
        = DrainExit.finished →
      ∃ l, (drainLoop mapped stat m parent (some ds) track uris tt).dir
        = some (ds ++ l) := by
  intro uris
  induction uris with
  | nil =>
      intro m parent ds track tt hfin
      cases tt with
      | true => simp [drainLoop] at hfin
      | false => exact ⟨[], by simp [drainLoop]⟩
  | cons uri rest ih =>
      intro m parent ds track tt hfin
      by_cases hb : uri = "mpd://bail"
      · simp [drainLoop, hb] at hfin
      · by_cases h : stat (mapped ++ "/" ++ uri)
        · rcases hl : (m.lookup uri) with _ | s
          · simp only [drainLoop, if_neg hb, if_pos h, hl, Option.isSome_some,
              if_true, Option.map_some'] at hfin ⊢
            obtain ⟨l, hl2⟩ := ih m parent _ _ tt hfin
            exact ⟨_ :: l, by rw [hl2, List.append_assoc]; rfl⟩
          · simp only [drainLoop, if_neg hb, if_pos h, hl, Option.isSome_some,
              if_true, Option.map_some'] at hfin ⊢
            obtain ⟨l, hl2⟩ := ih _ _ _ _ tt hfin
            exact ⟨_ :: l, by rw [hl2, List.append_assoc]; rfl⟩
        · simp [drainLoop, hb, h] at hfin

/-- A finished drain over a sequence containing the relative entry `X`
leaves the virtual directory holding a synthetic song whose stored
target is `../X`. -/
theorem drainLoop_adds_target (mapped : String) (stat : String → Bool)
    (X : String) (ha : isAbsoluteOrHasScheme X = false) :
    ∀ (uris : List String) (m : List (String × Song)) (parent : List Song)
      (ds : List Song) (track : Nat) (tt : Bool),
      (drainLoop mapped stat m parent (some ds) track uris tt).exit
        = DrainExit.finished →
      X ∈ uris →
      ∃ l, (drainLoop mapped stat m parent (some ds) track uris tt).dir = some l ∧
        ∃ s ∈ l, s.target = "../" ++ X := by
  intro uris
  induction uris with
  | nil => intro _ _ _ _ _ _ hX; simp at hX
  | cons uri rest ih =>
      intro m parent ds track tt hfin hX
      by_cases hb : uri = "mpd://bail"
      · simp [drainLoop, hb] at hfin
      · by_cases h : stat (mapped ++ "/" ++ uri)
        · rcases List.mem_cons.mp hX with hXu | hXr
          · subst hXu
            rcases hl : (m.lookup X) with _ | s
            · simp only [drainLoop, if_neg hb, if_pos h, hl, Option.isSome_some,
                if_true, Option.map_some'] at hfin ⊢
              obtain ⟨l, hl2⟩ := drainLoop_dir_mono mapped stat rest m parent _ _ tt hfin
              refine ⟨_, hl2, ?_⟩
              refine ⟨⟨trackName (track + 1),
                if isAbsoluteOrHasScheme X then X else "../" ++ X, false⟩, ?_, ?_⟩
              · rw [List.append_assoc]
                exact List.mem_append_right _
                  (List.mem_append_left _ (List.mem_singleton.mpr rfl))
              · simp [ha]
            · simp only [drainLoop, if_neg hb, if_pos h, hl, Option.isSome_some,
                if_true, Option.map_some'] at hfin ⊢
              obtain ⟨l, hl2⟩ := drainLoop_dir_mono mapped stat rest _ _ _ _ tt hfin
              refine ⟨_, hl2, ?_⟩
              refine ⟨⟨trackName (track + 1),
                if isAbsoluteOrHasScheme X then X else "../" ++ X, false⟩, ?_, ?_⟩
              · rw [List.append_assoc]
                exact List.mem_append_right _
                  (List.mem_append_left _ (List.mem_singleton.mpr rfl))
              · simp [ha]
          · rcases hl : (m.lookup uri) with _ | s
            · simp only [drainLoop, if_neg hb, if_pos h, hl, Option.isSome_some,
                if_true, Option.map_some'] at hfin ⊢
              exact ih m parent _ _ tt hfin hXr
            · simp only [drainLoop, if_neg hb, if_pos h, hl, Option.isSome_some,
                if_true, Option.map_some'] at hfin ⊢
              exact ih _ _ _ _ tt hfin hXr
        · simp [drainLoop, hb, h] at hfin

/-- C5: override rule — when the parent's pre-expansion snapshot contains
a real Song named `X` (filenames unique) and the sequence contains an
entry targeting the relative name `X`, a successful (finished) expansion
leaves the parent without any song named `X`, and the virtual directory
holds a synthetic song whose stored target `../X` resolves one level up
to `X`'s pre-removal location. -/
theorem c5_override (mapped : String) (stat : String → Bool) (parent : List Song)
    (ds : List Song) (uris : List String) (tt : Bool) (X : String)
    (hnd : (parent.map Song.filename).Nodup)
    (hX : ∃ sX ∈ parent, sX.filename = X)
    (hmem : X ∈ uris)
    (ha : isAbsoluteOrHasScheme X = false)
    (hfin : (updatePlaylistFileInner mapped stat parent (some ds) uris tt).exit
      = DrainExit.finished) :
    X ∉ (updatePlaylistFileInner mapped stat parent (some ds) uris tt).parentSongs.map
      Song.filename ∧
    ∃ l, (updatePlaylistFileInner mapped stat parent (some ds) uris tt).dir = some l ∧
      ∃ s ∈ l, s.target = "../" ++ X := by
  constructor
  · exact drainLoop_removes_filename mapped stat X uris (buildSongMap parent) parent
      (some ds) 0 tt hfin hmem (buildSongMap_snap parent) hnd
      (Or.inl (buildSongMap_lookup_isSome parent X hX))
  · exact drainLoop_adds_target mapped stat X ha uris (buildSongMap parent) parent
      ds 0 tt hfin hmem

/-- Witness for `c5_override` at a concrete input. -/
theorem c5_override_witness :
    ("a.mp3" : String) ∉ (updatePlaylistFileInner "m" (fun _ => true)
        [Song.mk "a.mp3" "" false] (some []) ["a.mp3"] false).parentSongs.map
        Song.filename ∧
    ∃ l, (updatePlaylistFileInner "m" (fun _ => true) [Song.mk "a.mp3" "" false]
        (some []) ["a.mp3"] false).dir = some l ∧
      ∃ s ∈ l, s.target = "../" ++ "a.mp3" :=
  c5_override "m" (fun _ => true) [Song.mk "a.mp3" "" false] [] ["a.mp3"] false
    "a.mp3" (by decide) ⟨Song.mk "a.mp3" "" false, by decide, rfl⟩ (by decide)
    (by decide) (by decide)

/-- The purger keeps a directory's name. -/
theorem purgeAux_name (res : List String → String → Option SongRef)
    (q : List String) (d : Directory) :
    (purgeAux res q d).1.name = d.name := by
  cases d with
  | node n f ss cs => cases f <;> simp [purgeAux, Directory.name]

/-- The purged node's children are the purged children. -/
theorem purgeAux_children (res : List String → String → Option SongRef)
    (q : List String) (n : String) (f : Bool) (ss : List Song) (cs : DirList) :
    (purgeAux res q (.node n f ss cs)).1.children = (purgeAuxList res q cs).1 := by
  cases f <;> simp [purgeAux, Directory.children]

/-- Child lookup commutes with the purger's child recursion. -/
theorem findDir_purgeAuxList (res : List String → String → Option SongRef)
    (q : List String) :
    ∀ (cs : DirList) (n : String),
      findDir n (purgeAuxList res q cs).1
        = (findDir n cs).map (fun c => (purgeAux res (q ++ [c.name]) c).1)
  | .nil, n => by simp [purgeAuxList, findDir]
  | .cons d tl, n => by
      simp only [purgeAuxList, findDir]
      cases hn : (d.name == n) with
      | true =>
          rw [show ((purgeAux res (q ++ [d.name]) d).1.name == n) = true from by
            rw [purgeAux_name]; exact hn]
          simp
      | false =>
          rw [show ((purgeAux res (q ++ [d.name]) d).1.name == n) = false from by
            rw [purgeAux_name]; exact hn]
          exact findDir_purgeAuxList res q tl n

/-- The song pass only keeps songs that were already present. -/
theorem purgeSongs_subset (res1 : String → Option SongRef) :
    ∀ (ss : List Song), ∀ x ∈ (purgeSongs res1 ss).1, x ∈ ss := by
  intro ss
  induction ss with
  | nil => simp [purgeSongs]
  | cons t rest ih =>
      intro x hx
      by_cases hc : (!(t.target == "")) && !(isAbsoluteOrHasScheme t.target)
      · rcases hrt : res1 t.target with _ | ref
        · simp only [purgeSongs, hc, hrt, if_pos] at hx
          exact List.mem_cons_of_mem _ (ih x hx)
        · simp only [purgeSongs, hc, hrt, if_pos] at hx
          rcases List.mem_cons.mp hx with he | hx2
          · exact he ▸ List.mem_cons_self _ _
          · exact List.mem_cons_of_mem _ (ih x hx2)
      · simp only [purgeSongs, if_neg hc] at hx
        rcases List.mem_cons.mp hx with he | hx2
        · exact he ▸ List.mem_cons_self _ _
        · exact List.mem_cons_of_mem _ (ih x hx2)

/-- Before the flips, every song of the purged tree is (by value) a song
of the original tree at the same path: the traversal only deletes. -/
theorem songsAt_purgeAux_mem (res : List String → String → Option SongRef) :
    ∀ (p q : List String) (d : Directory) (x : Song),
      x ∈ songsAt (purgeAux res q d).1 p → x ∈ songsAt d p := by
  intro p
  induction p with
  | nil =>
      intro q d x hx
      cases d with
      | node n f ss cs =>
          cases f with
          | true =>
              simp only [purgeAux, songsAt, Directory.songs] at hx ⊢
              exact purgeSongs_subset (res q) ss x hx
          | false =>
              simpa [purgeAux, songsAt, Directory.songs] using hx
  | cons a rest ih =>
      intro q d x hx
      cases d with
      | node n f ss cs =>
          rw [songsAt] at hx ⊢
          rw [purgeAux_children, findDir_purgeAuxList] at hx
          cases hf : findDir a cs with
          | none => rw [hf] at hx; simp at hx
          | some c =>
              rw [hf] at hx
              simp only [Option.map_some'] at hx
              simp only [Directory.children, hf]
              exact ih (q ++ [c.name]) c x hx

/-- Applying a flip keeps a directory's name. -/
theorem setFlip_name (d : Directory) (q : List String) (fname : String) :
    (setFlip d q fname).name = d.name := by
  cases d with
  | node n f ss cs => cases q <;> simp [setFlip, Directory.name]

/-- Child lookup after a flip finds either the untouched child or the
flipped version of the same child. -/
theorem setFlipList_findDir (a : String) (qs : List String) (fname : String) :
    ∀ (cs : DirList) (b : String),
      (findDir b (setFlipList a qs fname cs) = findDir b cs) ∨
      (∃ c, findDir b cs = some c ∧
        findDir b (setFlipList a qs fname cs) = some (setFlip c qs fname))
  | .nil, b => by simp [setFlipList]
  | .cons d tl, b => by
      simp only [setFlipList]
      by_cases hda : (d.name == a) = true
      · rw [if_pos hda]
        simp only [findDir]
        cases hdb : (d.name == b) with
        | true =>
            rw [show ((setFlip d qs fname).name == b) = true from by
              rw [setFlip_name]; exact hdb]
            exact Or.inr ⟨d, rfl, rfl⟩
        | false =>
            rw [show ((setFlip d qs fname).name == b) = false from by
              rw [setFlip_name]; exact hdb]
            exact Or.inl rfl
      · rw [if_neg hda]
        simp only [findDir]
        cases hdb : (d.name == b) with
        | true => exact Or.inl rfl
        | false => exact setFlipList_findDir a qs fname tl b

/-- A song of the tree after one flip is a song of the tree before it,
possibly with `in_playlist` turned true — never turned false. -/
theorem songsAt_setFlip_mem (fname : String) :
    ∀ (q : List String) (t : Directory) (p : List String) (x : Song),
      x ∈ songsAt (setFlip t q fname) p →
      ∃ y ∈ songsAt t p, x = y ∨ x = { y with in_playlist := true } := by
  intro q
  induction q with
  | nil =>
      intro t p x hx
      cases t with
      | node n f ss cs =>
          cases p with
          | nil =>
              simp only [setFlip, songsAt, Directory.songs] at hx ⊢
              obtain ⟨y, hy, he⟩ := List.mem_map.mp hx
              refine ⟨y, hy, ?_⟩
              by_cases hyf : (y.filename == fname) = true
              · right; rw [← he]; simp [flipSong, hyf]
              · left; rw [← he]; simp [flipSong, hyf]
          | cons b rest =>
              simp only [setFlip, songsAt, Directory.children] at hx ⊢
              exact ⟨x, hx, Or.inl rfl⟩
  | cons a qs ih =>
      intro t p x hx
      cases t with
      | node n f ss cs =>
          cases p with
          | nil =>
              simp only [setFlip, songsAt, Directory.songs] at hx ⊢
              exact ⟨x, hx, Or.inl rfl⟩
          | cons b rest =>
              simp only [setFlip, songsAt, Directory.children] at hx ⊢
              rcases setFlipList_findDir a qs fname cs b with hcase | ⟨c, hc, hc2⟩
              · rw [hcase] at hx
                exact ⟨x, hx, Or.inl rfl⟩
              · rw [hc2] at hx
                rw [hc]
                exact ih c rest x hx

/-- A song of the tree after the batch of flips is a song of the tree
before it, possibly with `in_playlist` turned true. -/
theorem songsAt_applyFlips_mem :
    ∀ (fl : List SongRef) (t : Directory) (p : List String) (x : Song),
      x ∈ songsAt (applyFlips t fl) p →
      ∃ y ∈ songsAt t p, x = y ∨ x = { y with in_playlist := true } := by
  intro fl
  induction fl with
  | nil => intro t p x hx; exact ⟨x, hx, Or.inl rfl⟩
  | cons r fl ih =>
      intro t p x hx
      have hx2 : x ∈ songsAt (applyFlips (setFlip t r.1 r.2) fl) p := hx
      obtain ⟨y1, hy1, hrel1⟩ := ih (setFlip t r.1 r.2) p x hx2
      obtain ⟨y, hy, hrel2⟩ := songsAt_setFlip_mem r.2 r.1 t p y1 hy1
      refine ⟨y, hy, ?_⟩
      rcases hrel1 with h1 | h1 <;> rcases hrel2 with h2 | h2
      · exact Or.inl (h1.trans h2)
      · exact Or.inr (h1.trans h2)
      · subst h2; exact Or.inr h1
      · subst h2; exact Or.inr h1

/-- C3 amended: the Purger never clears `in_playlist` — it only sets it.
A Song that carried the flag before the pass still carries it afterwards
wherever it survives at the same path under its (unique) filename, so a
stale flag from a previous run persists (see `c3_counterexample`); the
claimed tree-wide clear-and-recompute does not happen. -/
theorem c3_amended (res : List String → String → Option SongRef) (d : Directory)
    (p : List String) (s s' : Song)
    (hnd : ((songsAt d p).map Song.filename).Nodup)
    (hs : s ∈ songsAt d p) (hflag : s.in_playlist = true)
    (hs' : s' ∈ songsAt (purgeDanglingFromPlaylists res d).1 p)
    (hname : s'.filename = s.filename) :
    s'.in_playlist = true := by
  have hs2 : s' ∈ songsAt
      (applyFlips (purgeAux res [] d).1 (purgeAux res [] d).2.1) p := hs'
  obtain ⟨y1, hy1, hrel1⟩ := songsAt_applyFlips_mem _ _ p s' hs2
  have hy1' : y1 ∈ songsAt d p := songsAt_purgeAux_mem res p [] d y1 hy1
  have hfn : y1.filename = s.filename := by
    rcases hrel1 with h | h
    · rw [← hname, h]
    · rw [← hname, h]
  have hy1s : y1 = s := List.inj_on_of_nodup_map hnd hy1' hs hfn
  subst hy1s
  rcases hrel1 with h | h
  · rw [h]; exact hflag
  · rw [h]

/-- Witness for `c3_amended` at a concrete input: the stale flag of
`x.mp3` in `staleFlagTree` survives a full purger pass. -/
theorem c3_amended_witness : (Song.mk "x.mp3" "" true).in_playlist = true :=
  c3_amended (fun _ _ => none) staleFlagTree [] (Song.mk "x.mp3" "" true)
    (Song.mk "x.mp3" "" true) (by decide) (by decide) rfl (by decide) rfl

end MpdPlaylist
